import Mathlib

/-!
Verification of the packed-iterator core of the `faster` SIMD library
(src/iters.rs), over a shallow embedding in which a SIMD vector of width
`W` is a `List α` of length `W` and a scalar buffer is a `List α`.
Machine (`usize`) subtraction is modelled with release-build wraparound
semantics where it can underflow; all other arithmetic in the code is
provably in range and is modelled with plain `Nat` operations.
-/

namespace Faster

variable {α : Type} {β : Type}

/-- The wraparound modulus of 64-bit `usize` arithmetic, 2^64. -/
def USIZE_MOD : Nat := 18446744073709551616

/-- Rust `usize` subtraction `a - b` as it behaves in release builds for
`a, b < 2^64`: ordinary subtraction when `b ≤ a`, wraparound modulo 2^64
otherwise (a debug build would panic on the underflow instead). -/
def usizeSub (a b : Nat) : Nat := if b ≤ a then a - b else a + USIZE_MOD - b

/-- Modelled from the spec: `Packed::load(buffer, offset)` reads `WIDTH`
consecutive elements of the buffer starting at element offset `offset`
(`vecs.rs` is not under src/; §4.1 of the spec gives the contract). -/
def load (W : Nat) (data : List α) (offset : Nat) : List α :=
  (data.drop offset).take W

/-- Modelled from the spec: `Packed::store(buffer, offset)` writes the
vector's `WIDTH` lanes over the buffer elements starting at `offset`. -/
def store (v : List α) (buf : List α) (offset : Nat) : List α :=
  buf.take offset ++ v ++ buf.drop (offset + v.length)

/-- Modelled from the spec: `Merge::merge_partitioned(self, other, n)`
(`intrin` is not under src/): lanes `0..n` come from `self`, lanes
`n..WIDTH` come from `other` (§4.2 of the spec fixes this convention). -/
def merge_partitioned (self other : List α) (n : Nat) : List α :=
  self.take n ++ other.drop n

/-- Modelled from the spec: `Packed::replace(lane, scalar)` returns the
vector with the given lane replaced. -/
def replace (v : List α) (lane : Nat) (x : α) : List α := v.set lane x

/-- Rust slice indexing `data[i]`, which panics when out of bounds;
modelled totally with the element type's default (every use in this
development is proved in bounds). -/
def idx [Inhabited α] (data : List α) (i : Nat) : α :=
  data.getD i Inhabited.default

/-- Modelled from the spec: `Packed::extract(lane)` reads one lane. -/
def extract [Inhabited α] (v : List α) (lane : Nat) : α := idx v lane

/-- Modelled from the spec: `Vector::default()`, the broadcast of the
scalar type's default value into all `WIDTH` lanes. -/
def defaultVec (W : Nat) [Inhabited α] : List α :=
  List.replicate W (Inhabited.default : α)

/-- The slice-backed cursor `SIMDIter<T>` of src/iters.rs:178-181:
a `position` (in scalar elements) and the backing buffer. The three
ownership variants (`SIMDIter`, `SIMDRefIter`, `SIMDRefMutIter`)
implement `next_vector`/`next_partial` with identical bodies
(src/iters.rs:477-616), so one embedding covers all three. -/
structure SIMDIter (α : Type) where
  position : Nat
  data : List α

/-- `SIMDIterator::scalar_len` (src/iters.rs:482-484): `self.data.len()`. -/
def SIMDIter.scalar_len (s : SIMDIter α) : Nat := s.data.length

/-- `SIMDIterator::scalar_position` (src/iters.rs:487-489). -/
def SIMDIter.scalar_position (s : SIMDIter α) : Nat := s.position

/-- `ExactSizeIterator::len` (src/iters.rs:452-458): `self.data.len()`. -/
def SIMDIter.len (s : SIMDIter α) : Nat := s.data.length

/-- `SIMDIter::next_vector` (src/iters.rs:492-500): if a full vector
remains, load it unchecked at `position`, advance `position` by `WIDTH`
and return it; otherwise return `None` without touching the state. -/
def SIMDIter.next_vector (W : Nat) (s : SIMDIter α) :
    Option (List α) × SIMDIter α :=
  if s.position + W ≤ s.scalar_len then
    (some (load W s.data s.position), ⟨s.position + W, s.data⟩)
  else
    (none, s)

/-- `SIMDIter::next_partial` (src/iters.rs:502-521). The lane count
`empty_amt = WIDTH - (scalar_len - position)` is usize arithmetic and
underflows whenever more than `WIDTH` unread elements remain; it is
modelled with `usizeSub` (release-build wraparound). On the right-aligned
path (`WIDTH < scalar_len`) a full vector ending at `scalar_len` is
loaded and merged over `default`; otherwise the tail is built lane by
lane with `replace`. Afterwards `position` is set to `scalar_len`. -/
def SIMDIter.next_partial (W : Nat) [Inhabited α] (s : SIMDIter α)
    (default : List α) : Option (List α × Nat) × SIMDIter α :=
  if s.position < s.scalar_len then
    let empty_amt := usizeSub W (s.scalar_len - s.position)
    let ret :=
      if W < s.scalar_len then
        merge_partitioned default (load W s.data (s.scalar_len - W)) empty_amt
      else
        (List.range' empty_amt (W - empty_amt)).foldl
          (fun r i => replace r i (idx s.data (s.position + i - empty_amt))) default
    (some (ret, empty_amt), ⟨s.scalar_len, s.data⟩)
  else
    (none, s)

/-- `<SIMDIter as Iterator>::next` (src/iters.rs:404-409): reads
`data.get(position)` and then increments `position` unconditionally,
even when the read was out of bounds. -/
def SIMDIter.next (s : SIMDIter α) : Option α × SIMDIter α :=
  (s.data[s.position]?, ⟨s.position + 1, s.data⟩)

/-- The lazy mapping adapter `SIMDMap` (src/iters.rs:183-189); its
`default` field has the INNER iterator's vector type `I::Vector`. -/
structure SIMDMap (α β : Type) where
  iter : SIMDIter α
  func : List α → List β
  default : List α

/-- `SIMDMap`'s `SIMDIterator::scalar_len` (src/iters.rs:648-651):
delegates to the inner iterator without any rescaling. -/
def SIMDMap.scalar_len (m : SIMDMap α β) : Nat := m.iter.scalar_len

/-- `SIMDMap`'s `ExactSizeIterator::len` (src/iters.rs:634-641):
`self.iter.len()`, again without rescaling. -/
def SIMDMap.len (m : SIMDMap α β) : Nat := m.iter.len

/-- `SIMDMap::next_partial` (src/iters.rs:663-668): pull the inner
partial with the stored inner default, rescale the missing-lane count by
`I::Scalar::SIZE / Self::Scalar::SIZE` (modelled by the parameters
`inSize` and `outSize`), and merge the transformed vector over the
caller's output default at the rescaled partition point. -/
def SIMDMap.next_partial (W inSize outSize : Nat) [Inhabited α]
    (m : SIMDMap α β) (default : List β) :
    Option (List β × Nat) × SIMDMap α β :=
  match SIMDIter.next_partial W m.iter m.default with
  | (some (v, n), s') =>
    let nr := n * inSize / outSize
    (some (merge_partitioned default (m.func v) nr, nr), ⟨s', m.func, m.default⟩)
  | (none, s') => (none, ⟨s', m.func, m.default⟩)

/-- The `while let Some(vec) = self.next_vector()` loop of
`IntoScalar::scalar_fill` (src/iters.rs:727-731): store each full vector
into `fill` at the running `offset`, advancing `offset` by `WIDTH` and
remembering the vector in `lastvec`. `fuel` bounds the iteration count;
`data.length + 1` is always sufficient when `0 < W`. -/
def fillLoop (W fuel : Nat) (s : SIMDIter α) (fill : List α)
    (offset : Nat) (lastvec : List α) :
    SIMDIter α × List α × Nat × List α :=
  match fuel with
  | 0 => (s, fill, offset, lastvec)
  | fuel + 1 =>
    match SIMDIter.next_vector W s with
    | (some vec, s') => fillLoop W fuel s' (store vec fill offset) (offset + W) vec
    | (none, s') => (s', fill, offset, lastvec)

/-- `IntoScalar::scalar_fill` (src/iters.rs:722-747): drain all full
vectors into `fill`, then, if a partial tail exists, either write it
right-aligned at `offset - n` and re-store `lastvec` at `offset - WIDTH`
(when at least one full vector was written), or store the valid lanes
elementwise (when the buffer holds less than one vector). The
subtractions `offset - n` and `offset - WIDTH` never underflow because
`offset > 0` forces `offset ≥ WIDTH > n`. Returns the final cursor and
the filled buffer. -/
def scalar_fill (W : Nat) [Inhabited α] (s : SIMDIter α) (fill : List α) :
    SIMDIter α × List α :=
  match fillLoop W (s.data.length + 1) s fill 0 (defaultVec W) with
  | (s1, fill1, offset, lastvec) =>
    match SIMDIter.next_partial W s1 (defaultVec W) with
    | (some (p, n), s2) =>
      if 0 < offset then
        (s2, store lastvec (store p fill1 (offset - n)) (offset - W))
      else
        (s2, (List.range (W - n)).foldl
          (fun f i => f.set (offset + i) (extract p (i + n))) fill1)
    | (none, s2) => (s2, fill1)

/-- The `while let` loop of `IntoScalar::scalar_collect`
(src/iters.rs:700-704); its body is textually identical to
`scalar_fill`'s loop. -/
def collectLoop (W fuel : Nat) (s : SIMDIter α) (fill : List α)
    (offset : Nat) (lastvec : List α) :
    SIMDIter α × List α × Nat × List α :=
  match fuel with
  | 0 => (s, fill, offset, lastvec)
  | fuel + 1 =>
    match SIMDIter.next_vector W s with
    | (some vec, s') => collectLoop W fuel s' (store vec fill offset) (offset + W) vec
    | (none, s') => (s', fill, offset, lastvec)

/-- `IntoScalar::scalar_collect` (src/iters.rs:693-720): allocate a
buffer of `self.len()` elements with `Vec::with_capacity` + `set_len`
— its initial contents are uninitialized memory, modelled by the
explicit parameter `uninit` (callers require
`uninit.length = s.data.length`) — then run exactly the `scalar_fill`
algorithm into it and return it. -/
def scalar_collect (W : Nat) [Inhabited α] (s : SIMDIter α)
    (uninit : List α) : SIMDIter α × List α :=
  match collectLoop W (s.data.length + 1) s uninit 0 (defaultVec W) with
  | (s1, fill1, offset, lastvec) =>
    match SIMDIter.next_partial W s1 (defaultVec W) with
    | (some (p, n), s2) =>
      if 0 < offset then
        (s2, store lastvec (store p fill1 (offset - n)) (offset - W))
      else
        (s2, (List.range (W - n)).foldl
          (fun f i => f.set (offset + i) (extract p (i + n))) fill1)
    | (none, s2) => (s2, fill1)

/-- The `while let` loop of `SIMDRefMutIter::simd_for_each`
(src/iters.rs:353-358): run `func` on each full vector (its result is
`()` and is discarded) and store the LOADED vector `v` back into the
cursor's own buffer at `position - WIDTH`. -/
def forEachLoop (W : Nat) (func : List α → Unit) (fuel : Nat)
    (s : SIMDIter α) (offset : Nat) (lastvec : List α) :
    SIMDIter α × Nat × List α :=
  match fuel with
  | 0 => (s, offset, lastvec)
  | fuel + 1 =>
    match SIMDIter.next_vector W s with
    | (some v, s') =>
      let _ := func v
      forEachLoop W func fuel ⟨s'.position, store v s'.data (s'.position - W)⟩ (offset + W) v
    | (none, s') => (s', offset, lastvec)

/-- `SIMDRefMutIter::simd_for_each` (src/iters.rs:344-374): drain full
vectors, storing each loaded vector back at its own offset, then handle
the tail: with `offset > 0`, store the partial vector at `offset - n`
and re-store `lastvec` at `offset - WIDTH`; otherwise store the valid
tail lanes elementwise. `func` has result type `()` (unit), so nothing
it computes ever reaches the buffer. Returns the final cursor. -/
def simd_for_each (W : Nat) [Inhabited α] (s : SIMDIter α)
    (default : List α) (func : List α → Unit) : SIMDIter α :=
  match forEachLoop W func (s.data.length + 1) s 0 default with
  | (s1, offset, lastvec) =>
    match SIMDIter.next_partial W s1 default with
    | (some (p, n), s2) =>
      let _ := func p
      if 0 < offset then
        ⟨s2.position, store lastvec (store p s2.data (offset - n)) (offset - W)⟩
      else
        ⟨s2.position, (List.range (W - n)).foldl
          (fun d i => d.set (offset + i) (extract p (i + n))) s2.data⟩
    | (none, s2) => s2

/-! Pointwise lemmas about the vector primitives. -/

theorem usizeSub_of_le {a b : Nat} (h : b ≤ a) : usizeSub a b = a - b := by
  simp [usizeSub, h]

theorem idx_getElem? [Inhabited α] (data : List α) (i : Nat)
    (h : i < data.length) : data[i]? = some (idx data i) := by
  rw [List.getElem?_eq_getElem h]
  simp [idx, List.getD_eq_getElem?_getD, List.getElem?_eq_getElem h]

theorem load_length (W : Nat) (data : List α) (p : Nat)
    (h : p + W ≤ data.length) : (load W data p).length = W := by
  simp [load]
  omega

theorem load_getElem? (W : Nat) (data : List α) (p i : Nat) (h : i < W) :
    (load W data p)[i]? = data[p + i]? := by
  simp [load, List.getElem?_take, h, List.getElem?_drop]

theorem store_length (v buf : List α) (offset : Nat)
    (h : offset + v.length ≤ buf.length) :
    (store v buf offset).length = buf.length := by
  simp [store]
  omega

theorem store_getElem? (v buf : List α) (offset i : Nat)
    (h : offset + v.length ≤ buf.length) :
    (store v buf offset)[i]? =
      if offset ≤ i ∧ i < offset + v.length then v[i - offset]? else buf[i]? := by
  have hta : (buf.take offset).length = offset := by simp; omega
  rcases Nat.lt_or_ge i offset with hlt | hge
  · rw [store, List.append_assoc, List.getElem?_append_left (by omega),
      List.getElem?_take, if_pos hlt, if_neg (by omega)]
  · rw [store, List.append_assoc, List.getElem?_append_right (by omega), hta]
    rcases Nat.lt_or_ge (i - offset) v.length with h2 | h2
    · rw [List.getElem?_append_left h2, if_pos ⟨hge, by omega⟩]
    · rw [List.getElem?_append_right h2, if_neg (by omega), List.getElem?_drop]
      congr 1
      omega

theorem merge_length (a b : List α) (n : Nat) (ha : n ≤ a.length)
    (hb : n ≤ b.length) : (merge_partitioned a b n).length = b.length := by
  simp [merge_partitioned]
  omega

theorem merge_getElem?_lt (a b : List α) (n i : Nat) (hi : i < n)
    (hia : i < a.length) : (merge_partitioned a b n)[i]? = a[i]? := by
  rw [merge_partitioned, List.getElem?_append_left (by simp; omega),
    List.getElem?_take, if_pos hi]

theorem merge_getElem?_ge (a b : List α) (n i : Nat) (hi : n ≤ i)
    (ha : n ≤ a.length) : (merge_partitioned a b n)[i]? = b[i]? := by
  have hta : (a.take n).length = n := by simp; omega
  rw [merge_partitioned, List.getElem?_append_right (by omega), hta,
    List.getElem?_drop]
  congr 1
  omega

theorem store_load_self (W : Nat) (data : List α) (p : Nat)
    (h : p + W ≤ data.length) : store (load W data p) data p = data := by
  rw [store, load_length W data p h, load, List.append_assoc,
    ← List.drop_drop, List.take_append_drop W, List.take_append_drop p]

theorem foldl_replace_length (is : List Nat) (f : Nat → α) :
    ∀ l : List α, (is.foldl (fun r i => replace r i (f i)) l).length = l.length := by
  induction is with
  | nil => intro l; rfl
  | cons a is ih => intro l; rw [List.foldl_cons, ih]; simp [replace]

theorem foldl_replace_range' (k : Nat) :
    ∀ (a : Nat) (l : List α) (f : Nat → α) (j : Nat),
      ((List.range' a k).foldl (fun r i => replace r i (f i)) l)[j]? =
        if a ≤ j ∧ j < a + k then
          (if j < l.length then some (f j) else none)
        else l[j]? := by
  induction k with
  | zero =>
    intro a l f j
    rw [if_neg (by omega)]
    rfl
  | succ k ih =>
    intro a l f j
    rw [List.range'_succ, List.foldl_cons, ih]
    simp only [replace, List.length_set]
    by_cases hc1 : a + 1 ≤ j ∧ j < a + 1 + k
    · rw [if_pos hc1, if_pos (show a ≤ j ∧ j < a + (k + 1) by omega)]
    · rw [if_neg hc1]
      by_cases hc2 : a ≤ j ∧ j < a + (k + 1)
      · have hja : j = a := by omega
        subst hja
        rw [if_pos hc2, List.getElem?_set, if_pos rfl]
      · rw [if_neg hc2, List.getElem?_set, if_neg (show ¬a = j by omega)]

theorem foldl_set_length (is : List Nat) (g : Nat → α) (c : Nat) :
    ∀ l : List α, (is.foldl (fun r i => r.set (c + i) (g i)) l).length = l.length := by
  induction is with
  | nil => intro l; rfl
  | cons a is ih => intro l; rw [List.foldl_cons, ih]; simp

theorem foldl_set_range (m : Nat) (c : Nat) (g : Nat → α) :
    ∀ (l : List α) (j : Nat),
      ((List.range m).foldl (fun r i => r.set (c + i) (g i)) l)[j]? =
        if c ≤ j ∧ j < c + m ∧ j < l.length then some (g (j - c)) else l[j]? := by
  induction m with
  | zero =>
    intro l j
    rw [if_neg (by omega)]
    rfl
  | succ m ih =>
    intro l j
    rw [List.range_succ, List.foldl_append, List.foldl_cons, List.foldl_nil,
      List.getElem?_set, foldl_set_length, ih]
    by_cases hj : c + m = j
    · subst hj
      rw [if_pos rfl]
      by_cases h4 : c + m < l.length
      · rw [if_pos h4,
          if_pos (show c ≤ c + m ∧ c + m < c + (m + 1) ∧ c + m < l.length by omega)]
        have hm : c + m - c = m := by omega
        rw [hm]
      · rw [if_neg h4, if_neg (show ¬(c ≤ c + m ∧ c + m < c + (m + 1) ∧ c + m < l.length) by omega),
          List.getElem?_eq_none (by omega)]
    · rw [if_neg hj]
      by_cases hc : c ≤ j ∧ j < c + m ∧ j < l.length
      · rw [if_pos hc, if_pos (show c ≤ j ∧ j < c + (m + 1) ∧ j < l.length by omega)]
      · rw [if_neg hc, if_neg (show ¬(c ≤ j ∧ j < c + (m + 1) ∧ j < l.length) by omega)]

/-! Characterization of `next_partial` in the intended regime (at most one
vector's worth of unread tail), covering both the right-aligned load path
and the degenerate lane-by-lane path. -/

theorem next_partial_eq [Inhabited α] (W p : Nat) (data dft : List α)
    (hp : p < data.length) (hle : data.length - p ≤ W) (hd : dft.length = W) :
    ∃ v, SIMDIter.next_partial W ⟨p, data⟩ dft =
        (some (v, W - (data.length - p)), ⟨data.length, data⟩) ∧
      v.length = W ∧
      (∀ i, i < W - (data.length - p) → v[i]? = dft[i]?) ∧
      (∀ i, W - (data.length - p) ≤ i → i < W →
        v[i]? = data[p + i - (W - (data.length - p))]?) := by
  have hsub : usizeSub W (data.length - p) = W - (data.length - p) :=
    usizeSub_of_le hle
  by_cases hWL : W < data.length
  · have hll : (load W data (data.length - W)).length = W :=
      load_length _ _ _ (by omega)
    refine ⟨merge_partitioned dft (load W data (data.length - W))
        (W - (data.length - p)), ?_, ?_, ?_, ?_⟩
    · simp only [ SIMDIter.next_partial, SIMDIter.scalar_len]
      rw [if_pos hp, if_pos hWL, hsub]
    · rw [merge_length _ _ _ (by omega) (by rw [hll]; omega), hll]
    · intro i hi
      rw [merge_getElem?_lt _ _ _ _ hi (by omega)]
    · intro i hi hiW
      rw [merge_getElem?_ge _ _ _ _ hi (by omega), load_getElem? _ _ _ _ hiW]
      congr 1
      omega
  · refine ⟨(List.range' (W - (data.length - p)) (W - (W - (data.length - p)))).foldl
        (fun r i => replace r i (idx data (p + i - (W - (data.length - p))))) dft,
      ?_, ?_, ?_, ?_⟩
    · simp only [ SIMDIter.next_partial, SIMDIter.scalar_len]
      rw [if_pos hp, if_neg hWL, hsub]
    · rw [foldl_replace_length]
      exact hd
    · intro i hi
      rw [foldl_replace_range', if_neg (by omega)]
    · intro i hi hiW
      rw [foldl_replace_range', if_pos (by omega), if_pos (by omega),
        idx_getElem? data _ (by omega)]

/-! The draining loop shared by `scalar_fill` and `scalar_collect`:
starting from position `p` with destination offset `offset`, it performs
some number `k` of full-vector steps, each copying one vector of the
source into the destination, until fewer than `WIDTH` elements remain. -/

theorem fillLoop_spec (W : Nat) (hW : 0 < W) (data : List α) :
    ∀ (fuel p offset : Nat) (fill lv : List α),
      data.length - p ≤ fuel * W →
      offset + (data.length - p) ≤ fill.length →
      ∃ k fill1 lv1,
        fillLoop W fuel ⟨p, data⟩ fill offset lv =
          (⟨p + k * W, data⟩, fill1, offset + k * W, lv1) ∧
        data.length < p + k * W + W ∧
        (p ≤ data.length → p + k * W ≤ data.length) ∧
        fill1.length = fill.length ∧
        (∀ i, offset ≤ i → i < offset + k * W →
          fill1[i]? = data[p + (i - offset)]?) ∧
        (∀ i, i < offset ∨ offset + k * W ≤ i → fill1[i]? = fill[i]?) ∧
        (0 < k → lv1 = load W data (p + k * W - W)) ∧
        (k = 0 → lv1 = lv) := by
  intro fuel
  induction fuel with
  | zero =>
    intro p offset fill lv hfuel hfit
    refine ⟨0, fill, lv, ?_, by omega, by omega, rfl, ?_, ?_, ?_, fun _ => rfl⟩
    · simp [fillLoop]
    · intro i h1 h2
      omega
    · intro i _
      rfl
    · intro h
      omega
  | succ fuel ih =>
    intro p offset fill lv hfuel hfit
    by_cases hstep : p + W ≤ data.length
    · have hnv : SIMDIter.next_vector W ⟨p, data⟩ =
          (some (load W data p), ⟨p + W, data⟩) := by
        simp only [SIMDIter.next_vector, SIMDIter.scalar_len]
        rw [if_pos hstep]
      have hload : (load W data p).length = W := load_length _ _ _ hstep
      have hstlen : (store (load W data p) fill offset).length = fill.length := by
        rw [store_length]
        rw [hload]
        omega
      have hmul : (fuel + 1) * W = fuel * W + W := by ring
      obtain ⟨k, fill1, lv1, heq, hex, hble, hlen, hmid, hout, hlv, hlv0⟩ :=
        ih (p + W) (offset + W) (store (load W data p) fill offset)
          (load W data p) (by omega) (by rw [hstlen]; omega)
      have hkmul : (k + 1) * W = k * W + W := by ring
      refine ⟨k + 1, fill1, lv1, ?_, by omega, by omega, by rw [hlen, hstlen],
        ?_, ?_, ?_, by omega⟩
      · simp only [fillLoop, hnv]
        rw [heq, show p + W + k * W = p + (k + 1) * W from by ring,
          show offset + W + k * W = offset + (k + 1) * W from by ring]
      · intro i h1 h2
        rcases Nat.lt_or_ge i (offset + W) with h3 | h3
        · rw [hout i (Or.inl h3), store_getElem? _ _ _ _ (by rw [hload]; omega),
            if_pos (by rw [hload]; omega), load_getElem? _ _ _ _ (by omega)]
        · rw [hmid i h3 (by omega)]
          congr 1
          omega
      · intro i hi
        have hi2 : fill1[i]? = (store (load W data p) fill offset)[i]? := by
          apply hout
          omega
        rw [hi2, store_getElem? _ _ _ _ (by rw [hload]; omega),
          if_neg (by rw [hload]; omega)]
      · intro _
        rcases Nat.eq_zero_or_pos k with hk | hk
        · rw [hlv0 hk, hk]
          congr 1
          omega
        · rw [hlv hk]
          congr 1
          omega
    · have hnv : SIMDIter.next_vector W ⟨p, data⟩ = (none, ⟨p, data⟩) := by
        simp only [SIMDIter.next_vector, SIMDIter.scalar_len]
        rw [if_neg hstep]
      refine ⟨0, fill, lv, ?_, by omega, by omega, rfl, ?_, ?_, ?_, fun _ => rfl⟩
      · simp [fillLoop, hnv]
      · intro i h1 h2
        omega
      · intro i _
        rfl
      · intro h
        omega

/-- The `scalar_collect` loop is the same loop as the `scalar_fill` loop
(their bodies are textually identical in src/iters.rs). -/
theorem collectLoop_eq_fillLoop (W : Nat) :
    ∀ (fuel : Nat) (s : SIMDIter α) (fill : List α) (offset : Nat) (lv : List α),
      collectLoop W fuel s fill offset lv = fillLoop W fuel s fill offset lv := by
  intro fuel
  induction fuel with
  | zero => intro s fill offset lv; rfl
  | succ fuel ih =>
    intro s fill offset lv
    simp only [collectLoop, fillLoop]
    rcases SIMDIter.next_vector W s with ⟨o, s'⟩
    cases o with
    | none => rfl
    | some vec => exact ih _ _ _ _

/-- `scalar_collect` coincides with `scalar_fill` run on the buffer that
models the uninitialized allocation. -/
theorem scalar_collect_eq_fill (W : Nat) [Inhabited α] (s : SIMDIter α)
    (uninit : List α) :
    scalar_collect W s uninit = scalar_fill W s uninit := by
  simp only [scalar_collect, scalar_fill, collectLoop_eq_fillLoop]

/-! The in-place `simd_for_each` loop: every store writes the loaded
vector back at its own offset, so the buffer is unchanged and the cursor
advances exactly as in the draining loop. -/

theorem forEachLoop_spec (W : Nat) (hW : 0 < W) (func : List α → Unit)
    (data : List α) :
    ∀ (fuel p offset : Nat) (lv : List α),
      data.length - p ≤ fuel * W →
      ∃ k lv1,
        forEachLoop W func fuel ⟨p, data⟩ offset lv =
          (⟨p + k * W, data⟩, offset + k * W, lv1) ∧
        data.length < p + k * W + W ∧
        (p ≤ data.length → p + k * W ≤ data.length) ∧
        (0 < k → lv1 = load W data (p + k * W - W)) ∧
        (k = 0 → lv1 = lv) := by
  intro fuel
  induction fuel with
  | zero =>
    intro p offset lv hfuel
    refine ⟨0, lv, by simp [forEachLoop], by omega, by omega, by omega, fun _ => rfl⟩
  | succ fuel ih =>
    intro p offset lv hfuel
    by_cases hstep : p + W ≤ data.length
    · have hnv : SIMDIter.next_vector W ⟨p, data⟩ =
          (some (load W data p), ⟨p + W, data⟩) := by
        simp only [SIMDIter.next_vector, SIMDIter.scalar_len]
        rw [if_pos hstep]
      have hmul : (fuel + 1) * W = fuel * W + W := by ring
      obtain ⟨k, lv1, heq, hex, hble, hlv, hlv0⟩ :=
        ih (p + W) (offset + W) (load W data p) (by omega)
      have hkmul : (k + 1) * W = k * W + W := by ring
      refine ⟨k + 1, lv1, ?_, by omega, by omega, ?_, by omega⟩
      · have hself : store (load W data p) data (p + W - W) = data := by
          have hw : p + W - W = p := by omega
          rw [hw, store_load_self _ _ _ hstep]
        simp only [forEachLoop, hnv]
        rw [hself, heq, show p + W + k * W = p + (k + 1) * W from by ring,
          show offset + W + k * W = offset + (k + 1) * W from by ring]
      · intro _
        rcases Nat.eq_zero_or_pos k with hk | hk
        · rw [hlv0 hk, hk]
          congr 1
          omega
        · rw [hlv hk]
          congr 1
          omega
    · have hnv : SIMDIter.next_vector W ⟨p, data⟩ = (none, ⟨p, data⟩) := by
        simp only [SIMDIter.next_vector, SIMDIter.scalar_len]
        rw [if_neg hstep]
      refine ⟨0, lv, ?_, by omega, by omega, by omega, fun _ => rfl⟩
      simp [forEachLoop, hnv]

/-- Unfolding equation for `scalar_fill` given the loop's result, when a
partial tail remains. -/
theorem scalar_fill_eq_some (W : Nat) [Inhabited α] (s : SIMDIter α) (fill : List α)
    (s1 : SIMDIter α) (fill1 : List α) (offset : Nat) (lv1 : List α)
    (v : List α) (n : Nat) (s2 : SIMDIter α)
    (h : fillLoop W (s.data.length + 1) s fill 0 (defaultVec W) = (s1, fill1, offset, lv1))
    (h2 : SIMDIter.next_partial W s1 (defaultVec W) = (some (v, n), s2)) :
    scalar_fill W s fill =
      if 0 < offset then
        (s2, store lv1 (store v fill1 (offset - n)) (offset - W))
      else
        (s2, (List.range (W - n)).foldl
          (fun f i => f.set (offset + i) (extract v (i + n))) fill1) := by
  simp only [scalar_fill, h, h2]

/-- Unfolding equation for `scalar_fill` given the loop's result, when no
partial tail remains. -/
theorem scalar_fill_eq_none (W : Nat) [Inhabited α] (s : SIMDIter α) (fill : List α)
    (s1 : SIMDIter α) (fill1 : List α) (offset : Nat) (lv1 : List α)
    (s2 : SIMDIter α)
    (h : fillLoop W (s.data.length + 1) s fill 0 (defaultVec W) = (s1, fill1, offset, lv1))
    (h2 : SIMDIter.next_partial W s1 (defaultVec W) = (none, s2)) :
    scalar_fill W s fill = (s2, fill1) := by
  simp only [scalar_fill, h, h2]

/-- Full characterization of `scalar_fill` from an arbitrary cursor state:
the result keeps the destination's length, and the positions it writes —
exactly the first `scalar_len - position` of them — receive the source
elements `data[position..scalar_len]` in order. -/
theorem scalar_fill_spec (W : Nat) (hW : 0 < W) [Inhabited α] (p : Nat)
    (data fill : List α) (hfit : data.length ≤ fill.length) :
    (scalar_fill W ⟨p, data⟩ fill).2.length = fill.length ∧
    ∀ i, i < data.length - p →
      (scalar_fill W ⟨p, data⟩ fill).2[i]? = data[p + i]? := by
  have hfuel : data.length - p ≤ (data.length + 1) * W := by
    have h1 : (data.length + 1) * 1 ≤ (data.length + 1) * W :=
      Nat.mul_le_mul_left _ hW
    omega
  obtain ⟨k, fill1, lv1, heq, hex, hble, hlen, hmid, hout, hlv, hlv0⟩ :=
    fillLoop_spec W hW data (data.length + 1) p 0 fill (defaultVec W) hfuel
      (by omega)
  rw [Nat.zero_add] at heq
  have hkW : 1 * W ≤ k * W ∨ k = 0 := by
    rcases Nat.eq_zero_or_pos k with hk | hk
    · exact Or.inr hk
    · exact Or.inl (Nat.mul_le_mul_right W hk)
  by_cases htail : p + k * W < data.length
  · have hle2 : data.length - (p + k * W) ≤ W := by omega
    have hdlen : (defaultVec W : List α).length = W := by
      simp [defaultVec]
    obtain ⟨v, hnp, hvlen, hvlo, hvhi⟩ :=
      next_partial_eq W (p + k * W) data (defaultVec W) htail hle2 hdlen
    have hunf := scalar_fill_eq_some W ⟨p, data⟩ fill ⟨p + k * W, data⟩ fill1
      (k * W) lv1 v (W - (data.length - (p + k * W))) ⟨data.length, data⟩ heq hnp
    by_cases hk : 0 < k
    · have hkW' : 1 * W ≤ k * W := by
        rcases hkW with h | h
        · exact h
        · omega
      have hlv1 : lv1 = load W data (p + k * W - W) := hlv hk
      have hlv1len : lv1.length = W := by
        rw [hlv1]
        exact load_length _ _ _ (by omega)
      have hinlen : (store v fill1 (k * W - (W - (data.length - (p + k * W))))).length
          = fill.length := by
        rw [store_length, hlen]
        rw [hvlen]
        omega
      rw [if_pos (by omega)] at hunf
      simp only [hunf]
      constructor
      · rw [store_length, hinlen]
        rw [hlv1len]
        omega
      · intro i hi
        rw [store_getElem? _ _ _ _ (by rw [hlv1len, hinlen]; omega)]
        by_cases h3 : k * W - W ≤ i ∧ i < k * W - W + lv1.length
        · rw [if_pos h3, hlv1, load_getElem? _ _ _ _ (by rw [hlv1len] at h3; omega)]
          congr 1
          rw [hlv1len] at h3
          omega
        · rw [if_neg h3]
          rw [store_getElem? _ _ _ _ (by rw [hvlen, hlen]; omega)]
          rw [hlv1len] at h3
          by_cases h4 : k * W - (W - (data.length - (p + k * W))) ≤ i ∧
              i < k * W - (W - (data.length - (p + k * W))) + v.length
          · rw [if_pos h4]
            rw [hvlen] at h4
            rw [hvhi _ (by omega) (by omega)]
            congr 1
            omega
          · rw [if_neg h4]
            rw [hvlen] at h4
            rw [hmid i (by omega) (by omega)]
            congr 1
    · have hk0 : k = 0 := by omega
      have hkw0 : k * W = 0 := by rw [hk0, Nat.zero_mul]
      have hLp : data.length - p < W := by omega
      rw [if_neg (by omega)] at hunf
      simp only [hunf]
      constructor
      · rw [foldl_set_length, hlen]
      · intro i hi
        rw [foldl_set_range, if_pos (by rw [hlen]; omega)]
        have hidx : i + (W - (data.length - (p + k * W))) < v.length := by
          rw [hvlen]
          omega
        rw [show i - k * W = i from by omega]
        have hv := hvhi (i + (W - (data.length - (p + k * W)))) (by omega) (by omega)
        rw [idx_getElem? v _ hidx] at hv
        rw [show extract v (i + (W - (data.length - (p + k * W)))) =
            idx v (i + (W - (data.length - (p + k * W)))) from rfl, hv]
        congr 1
        omega
  · have hnp : SIMDIter.next_partial W ⟨p + k * W, data⟩ (defaultVec W) =
        (none, ⟨p + k * W, data⟩) := by
      simp only [ SIMDIter.next_partial, SIMDIter.scalar_len]
      rw [if_neg (by omega)]
    have hunf := scalar_fill_eq_none W ⟨p, data⟩ fill ⟨p + k * W, data⟩ fill1
      (k * W) lv1 ⟨p + k * W, data⟩ heq hnp
    simp only [hunf]
    refine ⟨hlen, ?_⟩
    intro i hi
    have hpL : p ≤ data.length := by omega
    rw [hmid i (by omega) (by omega)]
    congr 1

/-- Unfolding equation for `simd_for_each` given the loop's result, when a
partial tail remains. -/
theorem simd_for_each_eq_some (W : Nat) [Inhabited α] (s : SIMDIter α)
    (dflt : List α) (func : List α → Unit)
    (s1 : SIMDIter α) (offset : Nat) (lv1 : List α)
    (v : List α) (n : Nat) (s2pos : Nat) (s2data : List α)
    (h : forEachLoop W func (s.data.length + 1) s 0 dflt = (s1, offset, lv1))
    (h2 : SIMDIter.next_partial W s1 dflt = (some (v, n), ⟨s2pos, s2data⟩)) :
    simd_for_each W s dflt func =
      if 0 < offset then
        ⟨s2pos, store lv1 (store v s2data (offset - n)) (offset - W)⟩
      else
        ⟨s2pos, (List.range (W - n)).foldl
          (fun d i => d.set (offset + i) (extract v (i + n))) s2data⟩ := by
  simp only [simd_for_each, h, h2]

/-- Unfolding equation for `simd_for_each` given the loop's result, when no
partial tail remains. -/
theorem simd_for_each_eq_none (W : Nat) [Inhabited α] (s : SIMDIter α)
    (dflt : List α) (func : List α → Unit)
    (s1 : SIMDIter α) (offset : Nat) (lv1 : List α) (s2 : SIMDIter α)
    (h : forEachLoop W func (s.data.length + 1) s 0 dflt = (s1, offset, lv1))
    (h2 : SIMDIter.next_partial W s1 dflt = (none, s2)) :
    simd_for_each W s dflt func = s2 := by
  simp only [simd_for_each, h, h2]

/-- On a freshly constructed cursor, `simd_for_each` always leaves the
buffer exactly as it was (every store writes back values loaded from the
buffer itself) and ends with `position = scalar_len`. -/
theorem simd_for_each_spec (W : Nat) (hW : 0 < W) [Inhabited α]
    (data dflt : List α) (hd : dflt.length = W) (func : List α → Unit) :
    simd_for_each W ⟨0, data⟩ dflt func = ⟨data.length, data⟩ := by
  have hfuel : data.length - 0 ≤ (data.length + 1) * W := by
    have h1 : (data.length + 1) * 1 ≤ (data.length + 1) * W :=
      Nat.mul_le_mul_left _ hW
    omega
  obtain ⟨k, lv1, heq, hex, hble, hlv, hlv0⟩ :=
    forEachLoop_spec W hW func data (data.length + 1) 0 0 dflt hfuel
  simp only [Nat.zero_add] at heq hex hble hlv
  by_cases htail : k * W < data.length
  · have hle2 : data.length - k * W ≤ W := by omega
    obtain ⟨v, hnp, hvlen, hvlo, hvhi⟩ :=
      next_partial_eq W (k * W) data dflt htail hle2 hd
    have hunf := simd_for_each_eq_some W ⟨0, data⟩ dflt func ⟨k * W, data⟩
      (k * W) lv1 v (W - (data.length - k * W)) data.length data heq hnp
    by_cases hk : 0 < k
    · have hkW' : 1 * W ≤ k * W := Nat.mul_le_mul_right W hk
      have hlv1 : lv1 = load W data (k * W - W) := hlv hk
      have hlv1len : lv1.length = W := by
        rw [hlv1]
        exact load_length _ _ _ (by omega)
      rw [if_pos (by omega)] at hunf
      rw [hunf]
      have hinlen : (store v data (k * W - (W - (data.length - k * W)))).length
          = data.length := by
        rw [store_length]
        rw [hvlen]
        omega
      have hstores : store lv1 (store v data (k * W - (W - (data.length - k * W))))
          (k * W - W) = data := by
        apply List.ext_getElem?
        intro j
        rw [store_getElem? _ _ _ _ (by rw [hlv1len, hinlen]; omega)]
        by_cases h3 : k * W - W ≤ j ∧ j < k * W - W + lv1.length
        · rw [if_pos h3, hlv1, load_getElem? _ _ _ _ (by rw [hlv1len] at h3; omega)]
          congr 1
          rw [hlv1len] at h3
          omega
        · rw [if_neg h3]
          rw [store_getElem? _ _ _ _ (by rw [hvlen]; omega)]
          rw [hlv1len] at h3
          by_cases h4 : k * W - (W - (data.length - k * W)) ≤ j ∧
              j < k * W - (W - (data.length - k * W)) + v.length
          · rw [if_pos h4]
            rw [hvlen] at h4
            rw [hvhi _ (by omega) (by omega)]
            congr 1
            omega
          · rw [if_neg h4]
      rw [hstores]
    · have hk0 : k = 0 := by omega
      have hkw0 : k * W = 0 := by rw [hk0, Nat.zero_mul]
      rw [if_neg (by omega)] at hunf
      rw [hunf]
      have hfold : (List.range (W - (W - (data.length - k * W)))).foldl
          (fun d i => d.set (k * W + i) (extract v (i + (W - (data.length - k * W)))))
          data = data := by
        apply List.ext_getElem?
        intro j
        rw [foldl_set_range]
        by_cases hc : k * W ≤ j ∧ j < k * W + (W - (W - (data.length - k * W))) ∧
            j < data.length
        · rw [if_pos hc]
          have hidx : j - k * W + (W - (data.length - k * W)) < v.length := by
            rw [hvlen]
            omega
          have hv := hvhi (j - k * W + (W - (data.length - k * W)))
            (by omega) (by omega)
          rw [idx_getElem? v _ hidx] at hv
          rw [show extract v (j - k * W + (W - (data.length - k * W))) =
              idx v (j - k * W + (W - (data.length - k * W))) from rfl, hv]
          congr 1
          omega
        · rw [if_neg hc]
      rw [hfold]
  · have hnp : SIMDIter.next_partial W ⟨k * W, data⟩ dflt =
        (none, ⟨k * W, data⟩) := by
      simp only [ SIMDIter.next_partial, SIMDIter.scalar_len]
      rw [if_neg (by omega)]
    have hunf := simd_for_each_eq_none W ⟨0, data⟩ dflt func ⟨k * W, data⟩
      (k * W) lv1 ⟨k * W, data⟩ heq hnp
    rw [hunf, show k * W = data.length from by omega]

/-! Claim theorems. -/

/-- Counterexample to C1 as stated: at the reachable state `position = 0`
over the buffer `[1,2,3,4,5]` with `WIDTH = 4` (more than one vector's
worth of unread elements, so `WIDTH - (scalar_len - position)` underflows
usize), `next_partial` returns `Some` with lane count `2^64 - 1`, not
`WIDTH - (scalar_len - position) = 4 - 5` (which truncates to `0` in
unsigned arithmetic). -/
theorem C1_cex :
    ( SIMDIter.next_partial 4 (⟨0, [1, 2, 3, 4, 5]⟩ : SIMDIter Nat)
        [9, 9, 9, 9]).1 = some ([9, 9, 9, 9], 18446744073709551615) ∧
    (18446744073709551615 : Nat) ≠ 4 - (5 - 0) := by
  constructor
  · rfl
  · decide

/-- C1 (amended with `scalar_len - position ≤ WIDTH`, i.e. at most one
vector's worth of tail remains): `next_partial(default)` returns `Some`
of the vector whose lane `i` is `default`'s lane `i` for
`i < n = WIDTH - (scalar_len - position)` and the buffer element at
`position + i - n` for `n ≤ i < WIDTH`, together with the count `n`, and
sets `position` to `scalar_len`; this holds on both the right-aligned
full-width load path and the degenerate lane-by-lane path. -/
theorem C1_thm {α : Type} [Inhabited α] (W p : Nat) (data dflt : List α)
    (hp : p < data.length) (hle : data.length - p ≤ W) (hd : dflt.length = W) :
    SIMDIter.next_partial W ⟨p, data⟩ dflt =
      (some ((List.range W).map (fun i =>
          if i < W - (data.length - p) then idx dflt i
          else idx data (p + i - (W - (data.length - p)))),
        W - (data.length - p)), ⟨data.length, data⟩) := by
  obtain ⟨v, hnp, hvlen, hvlo, hvhi⟩ := next_partial_eq W p data dflt hp hle hd
  rw [hnp]
  have hv : v = (List.range W).map (fun i =>
      if i < W - (data.length - p) then idx dflt i
      else idx data (p + i - (W - (data.length - p)))) := by
    apply List.ext_getElem?
    intro j
    by_cases hj : j < W
    · rw [List.getElem?_map, List.getElem?_range hj]
      by_cases hn : j < W - (data.length - p)
      · rw [hvlo j hn, idx_getElem? dflt j (by omega), Option.map_some']
        simp only [if_pos hn]
      · rw [hvhi j (by omega) hj,
          idx_getElem? data _ (by omega), Option.map_some']
        simp only [if_neg hn]
    · rw [List.getElem?_eq_none (by omega),
        List.getElem?_eq_none (by simp [List.length_map, List.length_range]; omega)]
  rw [hv]

/-- Witness for the amended C1 at `WIDTH 4`, buffer `[1,2,3,4,5]`,
position 4, default `[9,9,9,9]`. -/
theorem C1_witness :
    SIMDIter.next_partial 4 (⟨4, [1, 2, 3, 4, 5]⟩ : SIMDIter Nat) [9, 9, 9, 9] =
      (some ((List.range 4).map (fun i =>
          if i < 3 then idx [9, 9, 9, 9] i
          else idx [1, 2, 3, 4, 5] (4 + i - 3)),
        3), ⟨5, [1, 2, 3, 4, 5]⟩) :=
  C1_thm 4 4 [1, 2, 3, 4, 5] [9, 9, 9, 9] (by decide) (by decide) (by decide)

/-- C2: `next_vector()` returns `Some` of the vector holding the buffer
elements at indices `position..position+WIDTH` and advances `position`
by `WIDTH` exactly when `position + WIDTH ≤ scalar_len`; otherwise it
returns `None` and leaves the cursor unchanged. -/
theorem C2_thm {α : Type} [Inhabited α] (W : Nat) (s : SIMDIter α) :
    (s.position + W ≤ s.data.length →
      SIMDIter.next_vector W s =
        (some ((List.range W).map (fun i => idx s.data (s.position + i))),
          ⟨s.position + W, s.data⟩)) ∧
    (s.data.length < s.position + W →
      SIMDIter.next_vector W s = (none, s)) := by
  constructor
  · intro h
    simp only [SIMDIter.next_vector, SIMDIter.scalar_len]
    rw [if_pos h]
    have hl : load W s.data s.position = (List.range W).map
        (fun i => idx s.data (s.position + i)) := by
      apply List.ext_getElem?
      intro j
      by_cases hj : j < W
      · rw [load_getElem? _ _ _ _ hj, List.getElem?_map, List.getElem?_range hj,
          idx_getElem? s.data _ (by omega), Option.map_some']
      · rw [List.getElem?_eq_none (by rw [load_length _ _ _ h]; omega),
          List.getElem?_eq_none (by simp [List.length_map, List.length_range]; omega)]
    rw [hl]
  · intro h
    simp only [SIMDIter.next_vector, SIMDIter.scalar_len]
    rw [if_neg (by omega)]

/-- Witness for C2: both branches at `WIDTH 2` over `[5,6,7]`. -/
theorem C2_witness :
    SIMDIter.next_vector 2 (⟨0, [5, 6, 7]⟩ : SIMDIter Nat) =
      (some ((List.range 2).map (fun i => idx [5, 6, 7] (0 + i))), ⟨2, [5, 6, 7]⟩) ∧
    SIMDIter.next_vector 2 (⟨2, [5, 6, 7]⟩ : SIMDIter Nat) = (none, ⟨2, [5, 6, 7]⟩) :=
  ⟨(C2_thm 2 ⟨0, [5, 6, 7]⟩).1 (by decide), (C2_thm 2 ⟨2, [5, 6, 7]⟩).2 (by decide)⟩

set_option linter.unusedVariables false in
/-- C3: draining a freshly constructed cursor with `scalar_fill` into a
destination of length `L` (repeated `next_vector`, one `next_partial`,
right-aligned tail writeback with overlap correction) reproduces the
original buffer exactly, for every length `L ≤ 4*WIDTH` and every element
pattern. (The proof does not even need the `4*WIDTH` bound.) -/
theorem C3_thm {α : Type} [Inhabited α] (W : Nat) (hW : 0 < W)
    (data fill : List α) (hbound : data.length ≤ 4 * W)
    (hlen : fill.length = data.length) :
    (scalar_fill W ⟨0, data⟩ fill).2 = data := by
  obtain ⟨hl, hpt⟩ := scalar_fill_spec W hW 0 data fill (by omega)
  apply List.ext_getElem?
  intro j
  by_cases hj : j < data.length
  · rw [hpt j (by omega)]
    congr 1
    omega
  · rw [List.getElem?_eq_none (show data.length ≤ j by omega),
      List.getElem?_eq_none (show (scalar_fill W ⟨0, data⟩ fill).2.length ≤ j by
        rw [hl, hlen]; omega)]

/-- Witness for C3: round-trip of `[1,2,3,4,5]` at `WIDTH 2`. -/
theorem C3_witness :
    (scalar_fill 2 (⟨0, [1, 2, 3, 4, 5]⟩ : SIMDIter Nat) [0, 0, 0, 0, 0]).2 =
      [1, 2, 3, 4, 5] :=
  C3_thm 2 (by decide) [1, 2, 3, 4, 5] [0, 0, 0, 0, 0] (by decide) (by decide)

/-- C4: `next_partial(default)` returns `Some` exactly when
`position < scalar_len`; for an empty buffer both `next_vector` and
`next_partial` return `None`; and once `next_partial` has returned
`Some`, every later call (at the resulting or any further position over
the same buffer, with any default) returns `None`. -/
theorem C4_thm {α : Type} [Inhabited α] (W : Nat) (hW : 0 < W)
    (s : SIMDIter α) (d1 d2 : List α) :
    ((( SIMDIter.next_partial W s d1).1.isSome = true) ↔
      s.position < s.data.length) ∧
    (s.data.length = 0 →
      (SIMDIter.next_vector W s).1 = none ∧
      ( SIMDIter.next_partial W s d1).1 = none) ∧
    (∀ r, ( SIMDIter.next_partial W s d1).1 = some r →
      ∀ q, ( SIMDIter.next_partial W s d1).2.position ≤ q →
        ( SIMDIter.next_partial W ⟨q, s.data⟩ d2).1 = none) := by
  refine ⟨?_, ?_, ?_⟩
  · by_cases h : s.position < s.data.length <;>
      simp [ SIMDIter.next_partial, SIMDIter.scalar_len, h]
  · intro h0
    constructor
    · simp only [SIMDIter.next_vector, SIMDIter.scalar_len]
      rw [if_neg (by omega)]
    · simp only [ SIMDIter.next_partial, SIMDIter.scalar_len]
      rw [if_neg (by omega)]
  · intro r hr q hq
    by_cases h : s.position < s.data.length
    · have h2 : ( SIMDIter.next_partial W s d1).2 = ⟨s.data.length, s.data⟩ := by
        simp [ SIMDIter.next_partial, SIMDIter.scalar_len, h]
      rw [h2] at hq
      simp only [ SIMDIter.next_partial, SIMDIter.scalar_len]
      rw [if_neg (by simp at hq; omega)]
    · exfalso
      simp [ SIMDIter.next_partial, SIMDIter.scalar_len, h] at hr

/-- Witness for C4: 'Some-iff', empty buffer, and idempotence-after-Some,
each at concrete inputs. -/
theorem C4_witness :
    ((( SIMDIter.next_partial 4 (⟨0, [7]⟩ : SIMDIter Nat) [0, 0, 0, 0]).1.isSome
        = true) ↔ (0 : Nat) < 1) ∧
    (SIMDIter.next_vector 4 (⟨0, ([] : List Nat)⟩)).1 = none ∧
    ( SIMDIter.next_partial 4 (⟨0, ([] : List Nat)⟩) [0, 0, 0, 0]).1 = none ∧
    ( SIMDIter.next_partial 4 (⟨5, [7]⟩ : SIMDIter Nat) [1, 1, 1, 1]).1 = none :=
  ⟨(C4_thm 4 (by decide) ⟨0, [7]⟩ [0, 0, 0, 0] [0, 0, 0, 0]).1,
   ((C4_thm 4 (by decide) ⟨0, ([] : List Nat)⟩ [0, 0, 0, 0] [0, 0, 0, 0]).2.1 rfl).1,
   ((C4_thm 4 (by decide) ⟨0, ([] : List Nat)⟩ [0, 0, 0, 0] [0, 0, 0, 0]).2.1 rfl).2,
   (C4_thm 4 (by decide) ⟨0, [7]⟩ [0, 0, 0, 0] [1, 1, 1, 1]).2.2
     ([0, 0, 0, 7], 3) rfl 5 (by decide)⟩

/-- C5 (evaluation at the failing input): `simd_for_each`'s `func` has
result type `()`, so the code stores back the LOADED vectors, never a
transformed result — running it over `[1,2,3,4,5]` leaves the buffer
unchanged instead of holding transformed values, contradicting the
claim and the function's own doc comment. -/
theorem C5_eval :
    (simd_for_each 4 (⟨0, [1, 2, 3, 4, 5]⟩ : SIMDIter Nat) [0, 0, 0, 0]
      (fun _ => ())).data = [1, 2, 3, 4, 5] := by
  decide

/-- Counterexample to C6 as stated: the scalar `Iterator::next` step
increments `position` unconditionally, so on an empty buffer a single
call drives `position` to 1 > `data.len() = 0`, violating the invariant
`position ≤ data.len()`. -/
theorem C6_cex :
    ¬ ((SIMDIter.next (⟨0, ([] : List Nat)⟩)).2.position ≤
        (SIMDIter.next (⟨0, ([] : List Nat)⟩)).2.data.length) := by
  decide

/-- C6 (amended): `next_vector` and `next_partial` never decrease
`position` and preserve `position ≤ data.len()`; the scalar
`Iterator::next` never decreases `position` but preserves the invariant
only when `position < data.len()` before the call (on an exhausted
cursor it pushes `position` past `data.len()`). -/
theorem C6_thm {α : Type} [Inhabited α] (W : Nat) (s : SIMDIter α)
    (dflt : List α) :
    (s.position ≤ (SIMDIter.next_vector W s).2.position ∧
      (s.position ≤ s.data.length →
        (SIMDIter.next_vector W s).2.position ≤
          (SIMDIter.next_vector W s).2.data.length)) ∧
    (s.position ≤ ( SIMDIter.next_partial W s dflt).2.position ∧
      (s.position ≤ s.data.length →
        ( SIMDIter.next_partial W s dflt).2.position ≤
          ( SIMDIter.next_partial W s dflt).2.data.length)) ∧
    (s.position ≤ (SIMDIter.next s).2.position ∧
      (s.position < s.data.length →
        (SIMDIter.next s).2.position ≤ (SIMDIter.next s).2.data.length)) := by
  refine ⟨⟨?_, fun hinv => ?_⟩, ⟨?_, fun hinv => ?_⟩, ?_, fun hinv => ?_⟩
  · by_cases h : s.position + W ≤ s.data.length <;>
      simp [SIMDIter.next_vector, SIMDIter.scalar_len, h]
  · by_cases h : s.position + W ≤ s.data.length <;>
      simp [SIMDIter.next_vector, SIMDIter.scalar_len, h]
    omega
  · by_cases h : s.position < s.data.length <;>
      simp [ SIMDIter.next_partial, SIMDIter.scalar_len, h]
    omega
  · by_cases h : s.position < s.data.length <;>
      simp [ SIMDIter.next_partial, SIMDIter.scalar_len, h]
    omega
  · simp [SIMDIter.next]
  · simp [SIMDIter.next]
    omega

/-- Witness for the amended C6 at a concrete cursor. -/
theorem C6_witness :
    (SIMDIter.next_vector 2 (⟨0, [1, 2, 3]⟩ : SIMDIter Nat)).2.position ≤
      (SIMDIter.next_vector 2 (⟨0, [1, 2, 3]⟩ : SIMDIter Nat)).2.data.length ∧
    ( SIMDIter.next_partial 2 (⟨0, [1, 2, 3]⟩ : SIMDIter Nat) [9, 9]).2.position ≤
      ( SIMDIter.next_partial 2 (⟨0, [1, 2, 3]⟩ : SIMDIter Nat) [9, 9]).2.data.length ∧
    (SIMDIter.next (⟨0, [1, 2, 3]⟩ : SIMDIter Nat)).2.position ≤
      (SIMDIter.next (⟨0, [1, 2, 3]⟩ : SIMDIter Nat)).2.data.length :=
  ⟨(C6_thm 2 ⟨0, [1, 2, 3]⟩ [9, 9]).1.2 (by decide),
   (C6_thm 2 ⟨0, [1, 2, 3]⟩ [9, 9]).2.1.2 (by decide),
   (C6_thm 2 ⟨0, [1, 2, 3]⟩ [9, 9]).2.2.2 (by decide)⟩

/-- Counterexample to C7 as stated: from the mid-stream state
`position = 2` over `[1,2,3,4]` with `WIDTH 2`, `scalar_collect` (whose
fresh buffer is uninitialized, here modelled as `[0,0,0,0]`) and
`scalar_fill` into `[9,9,9,9]` write only the first
`scalar_len - position = 2` slots, so the full output sequences differ:
`[3,4,0,0] ≠ [3,4,9,9]`. -/
theorem C7_cex :
    (scalar_collect 2 (⟨2, [1, 2, 3, 4]⟩ : SIMDIter Nat) [0, 0, 0, 0]).2 ≠
      (scalar_fill 2 (⟨2, [1, 2, 3, 4]⟩ : SIMDIter Nat) [9, 9, 9, 9]).2 := by
  decide

/-- C7 (amended): from any iterator state, `scalar_collect` and
`scalar_fill` (into any buffer at least `scalar_len` long) agree on every
position they actually write — the first `scalar_len - position`
entries; beyond those, `scalar_collect` keeps uninitialized contents
while `scalar_fill` keeps the destination's old contents. -/
theorem C7_thm {α : Type} [Inhabited α] (W : Nat) (hW : 0 < W)
    (s : SIMDIter α) (uninit fill : List α)
    (hu : uninit.length = s.data.length) (hf : s.data.length ≤ fill.length) :
    ∀ i, i < s.data.length - s.position →
      (scalar_collect W s uninit).2[i]? = (scalar_fill W s fill).2[i]? := by
  rcases s with ⟨p, data⟩
  dsimp only at hu hf
  intro i hi
  dsimp only at hi
  rw [scalar_collect_eq_fill]
  obtain ⟨hl1, hp1⟩ := scalar_fill_spec W hW p data uninit (by omega)
  obtain ⟨hl2, hp2⟩ := scalar_fill_spec W hW p data fill hf
  rw [hp1 i hi, hp2 i hi]

/-- Witness for the amended C7 at a concrete state and buffers. -/
theorem C7_witness :
    (scalar_collect 2 (⟨0, [1, 2, 3]⟩ : SIMDIter Nat) [0, 0, 0]).2[1]? =
      (scalar_fill 2 (⟨0, [1, 2, 3]⟩ : SIMDIter Nat) [7, 7, 7]).2[1]? :=
  C7_thm 2 (by decide) ⟨0, [1, 2, 3]⟩ [0, 0, 0] [7, 7, 7] (by decide) (by decide)
    1 (by decide)

/-- C8: when the inner iterator's `next_partial(inner_default)` returns
`Some((v, n))` with follow-up state `s'`, the `SIMDMap` adapter's
`next_partial(default)` returns
`Some((default.merge_partitioned(func(v), nr), nr))` with
`nr = n * input_scalar_size / output_scalar_size`, and it returns `None`
exactly when the inner call does. -/
theorem C8_thm {α β : Type} [Inhabited α] (W inSize outSize : Nat)
    (m : SIMDMap α β) (dflt : List β) :
    (∀ v n s', SIMDIter.next_partial W m.iter m.default = (some (v, n), s') →
      SIMDMap.next_partial W inSize outSize m dflt =
        (some (merge_partitioned dflt (m.func v) (n * inSize / outSize),
          n * inSize / outSize), ⟨s', m.func, m.default⟩)) ∧
    (( SIMDMap.next_partial W inSize outSize m dflt).1 = none ↔
      ( SIMDIter.next_partial W m.iter m.default).1 = none) := by
  constructor
  · intro v n s' h
    simp only [ SIMDMap.next_partial, h]
  · rcases h : SIMDIter.next_partial W m.iter m.default with ⟨o, s'⟩
    cases o with
    | none => simp [ SIMDMap.next_partial, h]
    | some r =>
      rcases r with ⟨v, n⟩
      simp [ SIMDMap.next_partial, h]

/-- Witness for C8: a widening map (input size 1, output size 2) over the
one-element buffer `[5]` at `WIDTH 4`; the inner tail misses 3 lanes and
the adapter reports `nr = 3 * 1 / 2 = 1`. -/
theorem C8_witness :
    SIMDMap.next_partial 4 1 2
        (⟨⟨0, [5]⟩, (fun v => v.map (fun x => x + 1)), [0, 0, 0, 0]⟩ :
          SIMDMap Nat Nat) [7, 7] =
      (some (merge_partitioned [7, 7]
          ((fun (v : List Nat) => v.map (fun x => x + 1)) [0, 0, 0, 5])
          (3 * 1 / 2), 3 * 1 / 2),
        ⟨⟨1, [5]⟩, (fun v => v.map (fun x => x + 1)), [0, 0, 0, 0]⟩) :=
  (C8_thm 4 1 2 ⟨⟨0, [5]⟩, (fun v => v.map (fun x => x + 1)), [0, 0, 0, 0]⟩
    [7, 7]).1 [0, 0, 0, 5] 3 ⟨1, [5]⟩ rfl

/-- Counterexample to C9 as stated: from the mid-stream cursor
`position = 1` over `[1,2,3,4,5,6]` with `WIDTH 2`, the tail writeback
uses the destination offset `offset = 4` (counted from 0) rather than
the cursor position, so `simd_for_each` corrupts the buffer to
`[1,2,4,5,6,6]`. -/
theorem C9_cex :
    (simd_for_each 2 (⟨1, [1, 2, 3, 4, 5, 6]⟩ : SIMDIter Nat) [9, 9]
      (fun _ => ())).data ≠ [1, 2, 3, 4, 5, 6] := by
  decide

/-- C9 (amended to freshly constructed cursors, `position = 0`):
`simd_for_each` leaves the buffer contents exactly equal to their
original values — full vectors are stored at their own offsets, the
tail's default padding lanes are overwritten and then restored from the
last full vector, and the sub-width path stores the original elements
elementwise. -/
theorem C9_thm {α : Type} [Inhabited α] (W : Nat) (hW : 0 < W)
    (data dflt : List α) (hd : dflt.length = W) (func : List α → Unit) :
    (simd_for_each W ⟨0, data⟩ dflt func).data = data := by
  rw [simd_for_each_spec W hW data dflt hd func]

/-- Witness for the amended C9 over `[1,2,3,4,5]` at `WIDTH 2`. -/
theorem C9_witness :
    (simd_for_each 2 (⟨0, [1, 2, 3, 4, 5]⟩ : SIMDIter Nat) [9, 9]
      (fun _ => ())).data = [1, 2, 3, 4, 5] :=
  C9_thm 2 (by decide) [1, 2, 3, 4, 5] [9, 9] (by decide) (fun _ => ())

/-- C10: `SIMDMap`'s `scalar_len` and `ExactSizeIterator::len` both
return the inner iterator's scalar element count unchanged — the
definitions never consult the scalar sizes, so no rescaling to output
elements happens, whatever the output type `β`. -/
theorem C10_thm {α β : Type} (m : SIMDMap α β) :
    SIMDMap.scalar_len m = m.iter.data.length ∧
    SIMDMap.len m = m.iter.data.length :=
  ⟨rfl, rfl⟩

end Faster
